import Mathlib

/-!
Shallow embedding of the `monkeys` example of the genevo repository
(`examples/monkeys/main.rs`) and of the parts of the simulator contract that the
specification describes.  Genome bytes (`u8`) are modelled as naturals, `usize`
arithmetic as naturals with explicit wrapping modulo `2 ^ 64`, and the one `f32`
computation (in `FitnessCalc::fitness_of`) by exact rational arithmetic, which
agrees with the `f32` evaluation at every reachable score.
-/

namespace Monkeys

/-- The target phrase of the example (`TARGET_TEXT` in the source). -/
def TARGET_TEXT : String := "See how a genius creates a legend"

/-- The characters of the target, `TARGET_TEXT.chars()` in the source. -/
def targetChars : List Char := TARGET_TEXT.data

/-- The genotype `TextGenome = Vec<u8>`; bytes are modelled as naturals
(bounded by 256 where a claim needs it). -/
abbrev TextGenome := List Nat

/-- The matching loop of `FitnessCalc::fitness_of`: count the positions at which
the genome byte, read as a character (`*c as char`), equals the corresponding
character of the target.  `genome.iter().zip(TARGET_TEXT.chars())` stops at the
shorter of the two sequences. -/
def score (genome : TextGenome) : Nat :=
  (genome.zip targetChars).foldl
    (fun s ct => if Char.ofNat ct.1 = ct.2 then s + 1 else s) 0

/-- `FitnessCalc::fitness_of`.  The source computes
`fraction = score as f32 / TARGET_TEXT.len() as f32` and returns
`(fraction * fraction * 100. + 0.5).floor() as usize`.  The `f32` arithmetic is
modelled by exact rational arithmetic; the score always lies in `0..=33`, and at
every such score the `f32` evaluation coincides with the exact rational value,
so the model is extensionally faithful.  The `as usize` cast of the
non-negative float is `Int.toNat` of the floor. -/
def fitness_of (genome : TextGenome) : Nat :=
  let fraction : ℚ := (score genome : ℚ) / (TARGET_TEXT.length : ℚ)
  (⌊fraction * fraction * 100 + 0.5⌋).toNat

/-- Outcome of a Rust `usize` computation that can panic: a value, or a
division-by-zero panic.  The `errInvalidInput` constructor is the error value
the specification speaks about; this code never produces it. -/
inductive UsizeOutcome where
  | ok (value : Nat) : UsizeOutcome
  | panicDivByZero : UsizeOutcome
  | errInvalidInput : UsizeOutcome
  deriving DecidableEq

/-- Rust `usize` division: `a / b` panics when `b = 0`, otherwise truncates. -/
def usizeDiv (a b : Nat) : UsizeOutcome :=
  if b = 0 then .panicDivByZero else .ok (a / b)

/-- `2 ^ 64`, the modulus of `usize` arithmetic on a 64-bit target. -/
def USIZE : Nat := 2 ^ 64

/-- `fitness_values.iter().sum::<usize>()`: the running sum wraps modulo
`2 ^ 64` (release-mode semantics of `usize` addition). -/
def sumUsize (l : List Nat) : Nat :=
  l.foldl (fun a b => (a + b) % USIZE) 0

/-- `FitnessCalc::average`:
`fitness_values.iter().sum::<usize>() / fitness_values.len()`, with the
division's panic on a zero divisor made explicit. -/
def average (fitness_values : List Nat) : UsizeOutcome :=
  usizeDiv (sumUsize fitness_values) fitness_values.length

/-- `FitnessCalc::highest_possible_fitness`. -/
def highest_possible_fitness : Nat := 100

/-- `FitnessCalc::lowest_possible_fitness`. -/
def lowest_possible_fitness : Nat := 0

/-- `AsPhenotype::as_text` for `TextGenome`: fold over the genome, appending
each byte read as a character (`*c as char`) to the accumulated string. -/
def as_text (genome : TextGenome) : String :=
  genome.foldl (fun s c => s.push (Char.ofNat c)) ""

/-- Model of `rand 0.4`'s `Rng::gen_range(low, high)`, which draws uniformly
from the half-open range `[low, high)`.  The state of the random source is
abstracted into the raw draw `d`; the returned value is `low + d % (high - low)`,
whose set of possible values over all draws is exactly `[low, high)`. -/
def gen_range (low high d : Nat) : Nat := low + d % (high - low)

/-- `Monkey::generate_genotype`: one gene per position of `0..TARGET_TEXT.len()`,
each drawn by `rng.gen_range(32u8, 126u8)`.  The random source is modelled as
the stream `r` of raw draws, one per position. -/
def generate_genotype (r : Nat → Nat) : TextGenome :=
  (List.range TARGET_TEXT.length).map (fun i => gen_range 32 126 (r i))

/-- Modelled from the spec: the Simulator's best-solution record (§3), the
highest fitness observed so far with the generation it was found in.  The
simulator lives in the genevo library, outside the example source. -/
structure BestSolution where
  fitness : Nat
  generation : Nat
  deriving DecidableEq

/-- Modelled from the spec: step 3 of the Simulator's `step()` (§4.8): the
record is replaced only when an evaluated individual strictly exceeds the
recorded fitness; ties keep the earlier-found record.  `evals` are the fitness
values of the current population, `gen` the current generation index. -/
def updateBest (best : BestSolution) (gen : Nat) (evals : List Nat) : BestSolution :=
  evals.foldl (fun b f => if b.fitness < f then ⟨f, gen⟩ else b) best

/-- Modelled from the spec: the best-solution record after `i` steps of a run
whose generation `j` evaluates its population to the fitness values `run j`. -/
def bestAfter (init : BestSolution) (run : Nat → List Nat) : Nat → BestSolution
  | 0 => init
  | i + 1 => updateBest (bestAfter init run i) i (run i)

/-- The byte encoding of the target phrase, a convenient concrete genome. -/
def targetBytes : TextGenome := targetChars.map Char.toNat

lemma target_length : TARGET_TEXT.length = 33 := by decide

lemma targetChars_length : targetChars.length = 33 := by decide

lemma foldl_count (l : List (Nat × Char)) :
    ∀ init : Nat,
      l.foldl (fun s ct => if Char.ofNat ct.1 = ct.2 then s + 1 else s) init
        = init + l.countP (fun ct => decide (Char.ofNat ct.1 = ct.2)) := by
  induction l with
  | nil => intro init; simp
  | cons a t ih =>
    intro init
    simp only [List.foldl_cons, List.countP_cons, ih]
    by_cases h : Char.ofNat a.1 = a.2
    · simp [h]
      omega
    · simp [h]

lemma score_eq_countP (g : TextGenome) :
    score g = (g.zip targetChars).countP (fun ct => decide (Char.ofNat ct.1 = ct.2)) := by
  unfold score
  simpa using foldl_count (g.zip targetChars) 0

lemma score_le (g : TextGenome) : score g ≤ 33 := by
  rw [score_eq_countP]
  calc (g.zip targetChars).countP _ ≤ (g.zip targetChars).length :=
        List.countP_le_length _
    _ ≤ targetChars.length := by rw [List.length_zip]; omega
    _ = 33 := targetChars_length

lemma fitness_of_closed (g : TextGenome) :
    fitness_of g = (200 * score g ^ 2 + 1089) / 2178 := by
  unfold fitness_of
  dsimp only
  rw [target_length]
  have key : ((score g : ℚ) / ((33 : ℕ) : ℚ)) * ((score g : ℚ) / ((33 : ℕ) : ℚ)) * 100 + 0.5
      = ((200 * score g ^ 2 + 1089 : ℕ) : ℚ) / ((2178 : ℕ) : ℚ) := by
    push_cast
    norm_num
    field_simp
    ring
  rw [key, Int.floor_toNat, Nat.floor_div_eq_div]

lemma fitness_closed_mono {s t : Nat} (h : s ≤ t) :
    (200 * s ^ 2 + 1089) / 2178 ≤ (200 * t ^ 2 + 1089) / 2178 := by
  apply Nat.div_le_div_right
  have := Nat.pow_le_pow_left h 2
  omega

lemma fitness_le_100 (g : TextGenome) : fitness_of g ≤ 100 := by
  rw [fitness_of_closed]
  calc (200 * score g ^ 2 + 1089) / 2178
      ≤ (200 * 33 ^ 2 + 1089) / 2178 := fitness_closed_mono (score_le g)
    _ = 100 := by norm_num

lemma fitness_eq_100_iff (g : TextGenome) : fitness_of g = 100 ↔ score g = 33 := by
  constructor
  · intro h
    by_contra hne
    have hlt : score g ≤ 32 := by have := score_le g; omega
    have : fitness_of g ≤ 94 := by
      rw [fitness_of_closed]
      calc (200 * score g ^ 2 + 1089) / 2178
          ≤ (200 * 32 ^ 2 + 1089) / 2178 := fitness_closed_mono hlt
        _ = 94 := by norm_num
    omega
  · intro h
    rw [fitness_of_closed, h]
    norm_num

lemma zip_append_left {α β : Type} :
    ∀ (t : List β) (g e : List α), t.length ≤ g.length → (g ++ e).zip t = g.zip t
  | [], _, _, _ => by simp
  | c :: t, [], e, h => by simp at h
  | c :: t, b :: g, e, h => by
    simp only [List.cons_append, List.zip_cons_cons]
    rw [zip_append_left t g e (by simpa using h)]

lemma score_append (g e : TextGenome) (h : 33 ≤ g.length) :
    score (g ++ e) = score g := by
  unfold score
  rw [zip_append_left targetChars g e (by rw [targetChars_length]; omega)]

lemma countP_zip_eq_iff :
    ∀ (g : TextGenome) (t : List Char), g.length = t.length →
      ((g.zip t).countP (fun ct => decide (Char.ofNat ct.1 = ct.2)) = t.length
        ↔ g.map Char.ofNat = t) := by
  intro g
  induction g with
  | nil =>
    intro t h
    cases t with
    | nil => simp
    | cons c t => simp at h
  | cons b g ih =>
    intro t h
    cases t with
    | nil => simp at h
    | cons c t =>
      have hlen : g.length = t.length := by simpa using h
      have hle : (g.zip t).countP (fun ct => decide (Char.ofNat ct.1 = ct.2)) ≤ t.length := by
        calc (g.zip t).countP _ ≤ (g.zip t).length := List.countP_le_length _
          _ ≤ t.length := by rw [List.length_zip]; omega
      by_cases hb : Char.ofNat b = c
      · have h2 := ih t hlen
        simp only [List.zip_cons_cons, List.countP_cons, List.length_cons,
          List.map_cons, List.cons.injEq]
        simp [hb, h2]
      · simp only [List.zip_cons_cons, List.countP_cons, List.length_cons,
          List.map_cons, List.cons.injEq]
        simp [hb]
        omega

lemma score_eq_33_iff (g : TextGenome) (h : g.length = 33) :
    score g = 33 ↔ g.map Char.ofNat = targetChars := by
  rw [score_eq_countP]
  have := countP_zip_eq_iff g targetChars (by rw [targetChars_length]; omega)
  rwa [targetChars_length] at this

lemma as_text_go (l : List Nat) :
    ∀ s : List Char,
      (l.foldl (fun acc c => acc.push (Char.ofNat c)) (String.mk s)).data
        = s ++ l.map Char.ofNat := by
  induction l with
  | nil => intro s; simp
  | cons b t ih =>
    intro s
    have hpush : (String.mk s).push (Char.ofNat b) = String.mk (s ++ [Char.ofNat b]) := rfl
    simp only [List.foldl_cons, List.map_cons, hpush, ih]
    simp

lemma as_text_data (g : TextGenome) : (as_text g).data = g.map Char.ofNat := by
  have h : ("" : String) = String.mk [] := rfl
  unfold as_text
  rw [h, as_text_go]
  simp

lemma as_text_length (g : TextGenome) : (as_text g).length = g.length := by
  rw [← String.length_data, as_text_data, List.length_map]

lemma as_text_eq_target_iff (g : TextGenome) :
    as_text g = TARGET_TEXT ↔ g.map Char.ofNat = targetChars := by
  rw [String.ext_iff, as_text_data]
  exact Iff.rfl

lemma toNat_charOfNat {b : Nat} (hb : b < 55296) : (Char.ofNat b).toNat = b := by
  have hv : b.isValidChar := Or.inl hb
  rw [Char.ofNat, dif_pos hv]
  rfl

lemma charOfNat_injOn {a b : Nat} (ha : a < 256) (hb : b < 256)
    (h : Char.ofNat a = Char.ofNat b) : a = b := by
  have hT := congrArg Char.toNat h
  rwa [toNat_charOfNat (by omega), toNat_charOfNat (by omega)] at hT

lemma map_charOfNat_inj :
    ∀ (g₁ g₂ : TextGenome), (∀ b ∈ g₁, b < 256) → (∀ b ∈ g₂, b < 256) →
      g₁.map Char.ofNat = g₂.map Char.ofNat → g₁ = g₂ := by
  intro g₁
  induction g₁ with
  | nil =>
    intro g₂ _ _ h
    cases g₂ with
    | nil => rfl
    | cons c u => simp at h
  | cons b t ih =>
    intro g₂ h₁ h₂ h
    cases g₂ with
    | nil => simp at h
    | cons c u =>
      simp only [List.map_cons, List.cons.injEq] at h
      have hb : b < 256 := h₁ b (by simp)
      have hc : c < 256 := h₂ c (by simp)
      have hbc : b = c := charOfNat_injOn hb hc h.1
      have ht : t = u :=
        ih u (fun x hx => h₁ x (by simp [hx])) (fun x hx => h₂ x (by simp [hx])) h.2
      rw [hbc, ht]

lemma gen_range_bounds (low high d : Nat) (h : low < high) :
    low ≤ gen_range low high d ∧ gen_range low high d < high := by
  unfold gen_range
  have hm : d % (high - low) < high - low := Nat.mod_lt _ (by omega)
  omega

lemma generate_genotype_mem {r : Nat → Nat} {g : Nat} (hg : g ∈ generate_genotype r) :
    32 ≤ g ∧ g ≤ 125 := by
  unfold generate_genotype at hg
  simp only [List.mem_map, List.mem_range] at hg
  obtain ⟨i, -, rfl⟩ := hg
  have := gen_range_bounds 32 126 (r i) (by omega)
  omega

lemma generate_genotype_length (r : Nat → Nat) :
    (generate_genotype r).length = 33 := by
  unfold generate_genotype
  rw [List.length_map, List.length_range, target_length]

lemma updateBest_fitness_le (gen : Nat) :
    ∀ (evals : List Nat) (b : BestSolution),
      b.fitness ≤ (updateBest b gen evals).fitness := by
  intro evals
  induction evals with
  | nil => intro b; exact Nat.le_refl _
  | cons f t ih =>
    intro b
    show b.fitness ≤ (updateBest (if b.fitness < f then ⟨f, gen⟩ else b) gen t).fitness
    by_cases h : b.fitness < f
    · rw [if_pos h]
      exact Nat.le_trans (Nat.le_of_lt h) (ih ⟨f, gen⟩)
    · rw [if_neg h]
      exact ih b

lemma sumUsize_eq_mod :
    ∀ (l : List Nat) (a : Nat),
      l.foldl (fun x b => (x + b) % USIZE) (a % USIZE) = (a + l.sum) % USIZE := by
  intro l
  induction l with
  | nil => intro a; simp
  | cons b t ih =>
    intro a
    simp only [List.foldl_cons, List.sum_cons]
    rw [Nat.mod_add_mod, ih (a + b), Nat.add_assoc]

lemma sumUsize_eq_sum (l : List Nat) (h : l.sum < USIZE) : sumUsize l = l.sum := by
  unfold sumUsize
  have h0 : (0 : Nat) = 0 % USIZE := (Nat.zero_mod USIZE).symm
  rw [h0, sumUsize_eq_mod l 0, Nat.zero_add, Nat.mod_eq_of_lt h]

/-- Claim C1, counterexample: `average` on the empty fitness list does not return
an `InvalidInput` error. -/
theorem average_empty_ne_invalidInput :
    average [] ≠ UsizeOutcome.errInvalidInput := by decide

/-- Claim C1 (amended): calling `average` on an empty list of fitness values
panics with a division by zero — the empty-slice case is not handled, the
division `sum / len` is performed unconditionally. -/
theorem average_empty_panics :
    average [] = UsizeOutcome.panicDivByZero := by decide

/-- Claim C2: for every genome whose length equals the length of `TARGET_TEXT`,
`fitness_of` returns 100 if and only if the decoded phenotype `as_text` equals
`TARGET_TEXT` exactly; any mismatch yields a fitness strictly below 100. -/
theorem fitness_100_iff_target (g : TextGenome)
    (_hb : ∀ b ∈ g, b < 256) (hlen : g.length = TARGET_TEXT.length) :
    (fitness_of g = 100 ↔ as_text g = TARGET_TEXT) ∧
    (as_text g ≠ TARGET_TEXT → fitness_of g < 100) := by
  have h33 : g.length = 33 := by rw [hlen, target_length]
  have hiff : fitness_of g = 100 ↔ as_text g = TARGET_TEXT := by
    rw [fitness_eq_100_iff, as_text_eq_target_iff, score_eq_33_iff g h33]
  refine ⟨hiff, fun hne => ?_⟩
  have hne100 : fitness_of g ≠ 100 := fun hc => hne (hiff.mp hc)
  have hle := fitness_le_100 g
  omega

/-- Witness for claim C2, at the genome that spells the target itself. -/
theorem fitness_100_iff_target_witness :
    (fitness_of targetBytes = 100 ↔ as_text targetBytes = TARGET_TEXT) ∧
    (as_text targetBytes ≠ TARGET_TEXT → fitness_of targetBytes < 100) :=
  fitness_100_iff_target targetBytes (by decide) (by decide)

/-- Claim C3, counterexample: the generated genotype does not have length 35. -/
theorem generate_genotype_length_ne_35 :
    (generate_genotype (fun _ => 0)).length ≠ 35 := by
  rw [generate_genotype_length]
  decide

/-- Claim C3 (amended): every genotype produced by `Monkey::generate_genotype`
is a byte vector of length 33, the length of `TARGET_TEXT`. -/
theorem genotype_space_33 (r : Nat → Nat) :
    (generate_genotype r).length = 33 :=
  generate_genotype_length r

/-- Claim C4: for every random source state, every gene of the generated
genotype lies within the inclusive value range `32..=126`. -/
theorem generated_genes_in_inclusive_range (r : Nat → Nat) (g : Nat)
    (hg : g ∈ generate_genotype r) : 32 ≤ g ∧ g ≤ 126 := by
  have := generate_genotype_mem hg
  omega

/-- Witness for claim C4, at the all-zero draw stream. -/
theorem generated_genes_in_inclusive_range_witness :
    32 ∈ generate_genotype (fun _ => 0) ∧ (32 ≤ 32 ∧ (32 : Nat) ≤ 126) :=
  ⟨by decide, generated_genes_in_inclusive_range (fun _ => 0) 32 (by decide)⟩

/-- Claim C5: the fitness of every genome, of any length, lies between
`lowest_possible_fitness` (0) and `highest_possible_fitness` (100). -/
theorem fitness_within_bounds (g : TextGenome) :
    lowest_possible_fitness ≤ fitness_of g ∧ fitness_of g ≤ highest_possible_fitness := by
  unfold lowest_possible_fitness highest_possible_fitness
  exact ⟨Nat.zero_le _, fitness_le_100 g⟩

/-- Claim C6: for every non-empty list of fitness values whose sum fits in
`usize`, `average` returns the truncating integer quotient of the sum by the
number of values. -/
theorem average_nonempty (l : List Nat) (hne : l ≠ []) (hfit : l.sum < USIZE) :
    average l = UsizeOutcome.ok (l.sum / l.length) := by
  unfold average usizeDiv
  have hlen : l.length ≠ 0 := fun h => hne (List.eq_nil_of_length_eq_zero h)
  rw [sumUsize_eq_sum l hfit, if_neg hlen]

/-- Witness for claim C6, at the list `[3, 4]`. -/
theorem average_nonempty_witness :
    ([3, 4] : List Nat) ≠ [] ∧ ([3, 4] : List Nat).sum < USIZE ∧
      average [3, 4] = UsizeOutcome.ok (([3, 4] : List Nat).sum / ([3, 4] : List Nat).length) :=
  ⟨by decide, by decide, average_nonempty [3, 4] (by decide) (by decide)⟩

/-- Claim C7: the best-solution record is updated monotonically — after every
step its fitness is at least the fitness recorded after the previous step. -/
theorem best_fitness_monotone (init : BestSolution) (run : Nat → List Nat) (i : Nat) :
    (bestAfter init run i).fitness ≤ (bestAfter init run (i + 1)).fitness :=
  updateBest_fitness_le i (run i) (bestAfter init run i)

/-- Claim C8, counterexample: appending genes to a genome shorter than the
target changes the fitness, so `fitness_of` does not in general satisfy
`fitness_of (g ++ e) = fitness_of g`. -/
theorem fitness_append_cex :
    fitness_of (([] : TextGenome) ++ [83, 101, 101]) ≠ fitness_of ([] : TextGenome) := by
  rw [fitness_of_closed, fitness_of_closed]
  decide

/-- Claim C8 (amended): for every genome `g` at least as long as the target,
`fitness_of` ignores appended genes: `fitness_of (g ++ e) = fitness_of g`;
consequently a genome strictly longer than the target whose decoded phenotype
starts with the target scores 100 without its phenotype equaling the target. -/
theorem fitness_ignores_beyond_target (g e : TextGenome)
    (h : TARGET_TEXT.length ≤ g.length) :
    fitness_of (g ++ e) = fitness_of g ∧
    (as_text g = TARGET_TEXT → e ≠ [] →
      fitness_of (g ++ e) = 100 ∧ as_text (g ++ e) ≠ TARGET_TEXT) := by
  have h33 : 33 ≤ g.length := by rwa [target_length] at h
  have happ : fitness_of (g ++ e) = fitness_of g := by
    rw [fitness_of_closed, fitness_of_closed, score_append g e h33]
  refine ⟨happ, fun htext hne => ⟨?_, fun hc => ?_⟩⟩
  · have hlen : g.length = 33 := by
      have hlt := congrArg String.length htext
      rwa [as_text_length, target_length] at hlt
    rw [happ, fitness_eq_100_iff]
    exact (score_eq_33_iff g hlen).mpr ((as_text_eq_target_iff g).mp htext)
  · have hlen : g.length = 33 := by
      have hlt := congrArg String.length htext
      rwa [as_text_length, target_length] at hlt
    have hl2 := congrArg String.length hc
    rw [as_text_length, List.length_append, target_length] at hl2
    have he : e.length = 0 := by omega
    exact hne (List.eq_nil_of_length_eq_zero he)

/-- Witness for claim C8, at the target genome extended by one extra gene. -/
theorem fitness_ignores_beyond_target_witness :
    TARGET_TEXT.length ≤ targetBytes.length ∧
    (fitness_of (targetBytes ++ [32]) = fitness_of targetBytes ∧
      (as_text targetBytes = TARGET_TEXT → ([32] : TextGenome) ≠ [] →
        fitness_of (targetBytes ++ [32]) = 100 ∧
        as_text (targetBytes ++ [32]) ≠ TARGET_TEXT)) :=
  ⟨by decide, fitness_ignores_beyond_target targetBytes [32] (by decide)⟩

/-- Claim C9: generation draws each gene from the half-open range `[32, 126)`:
every generated gene `g` satisfies `32 ≤ g ≤ 125`, and the value 126 is never
produced, for every random source state. -/
theorem generated_genes_half_open (r : Nat → Nat) :
    (∀ g ∈ generate_genotype r, 32 ≤ g ∧ g ≤ 125) ∧ 126 ∉ generate_genotype r := by
  refine ⟨fun g hg => generate_genotype_mem hg, fun hc => ?_⟩
  have := generate_genotype_mem hc
  omega

/-- Witness for claim C9, at the all-zero draw stream. -/
theorem generated_genes_half_open_witness :
    32 ∈ generate_genotype (fun _ => 0) ∧ (32 ≤ 32 ∧ (32 : Nat) ≤ 125) ∧
      126 ∉ generate_genotype (fun _ => 0) :=
  ⟨by decide, (generated_genes_half_open (fun _ => 0)).1 32 (by decide),
    (generated_genes_half_open (fun _ => 0)).2⟩

/-- Claim C10: `as_text` returns the string whose characters are exactly the
genome's bytes read as characters, its character count equals the genome's
length, and `as_text` is injective on byte genomes. -/
theorem as_text_faithful (g₁ g₂ : TextGenome)
    (h₁ : ∀ b ∈ g₁, b < 256) (h₂ : ∀ b ∈ g₂, b < 256) :
    (as_text g₁).data = g₁.map Char.ofNat ∧ (as_text g₁).length = g₁.length ∧
    (as_text g₁ = as_text g₂ → g₁ = g₂) := by
  refine ⟨as_text_data g₁, as_text_length g₁, fun h => ?_⟩
  apply map_charOfNat_inj g₁ g₂ h₁ h₂
  rw [← as_text_data, ← as_text_data, h]

/-- Witness for claim C10, at the genomes `[72, 105]` and `[72]`. -/
theorem as_text_faithful_witness :
    ((as_text [72, 105]).data = ([72, 105] : TextGenome).map Char.ofNat ∧
      (as_text [72, 105]).length = ([72, 105] : TextGenome).length ∧
      (as_text [72, 105] = as_text [72] → ([72, 105] : TextGenome) = [72])) :=
  as_text_faithful [72, 105] [72] (by decide) (by decide)

end Monkeys
